import Mathlib

/-!
Verification of the gocoverdir tool (`src/gocoverdir.go`) against its
natural-language specification.

The development shallowly embeds the pure core of the program:

* `Block` / `calculateCoverage` embed the statement-coverage computation
  (`calculateCoverage`, gocoverdir.go lines 287-306); Go `float64`
  arithmetic is modelled by exact rationals `ℚ`, and Go `int` by `Int`.
* `splitNL` / `joinNL` / `mergeProfiles` embed the profile-merge loop of
  `handleErr` (lines 229-251); Go byte strings are modelled as `List Char`.
* `pathExt` embeds Go's `path.Ext`, `containsGoTest` the function of the
  same name (lines 202-209).
* `FSNode`, `coverDirectory` and `coverDirectoryLoop` embed the recursive
  walk `coverDirectory` (lines 172-200) over an explicit directory tree;
  the external `go test` subprocess of `coverDir` (lines 141-170) is an
  oracle parameter giving the start and wait errors of each invocation.
  Paths are modelled as segment lists relative to the walk root.
* `verifyParamsPanics` (lines 91-95), `handleCoverage` (lines 253-285) and
  `mainRun` (main/setup/handleErr control flow with Go `defer`/`panic`
  semantics made explicit) embed the run-level orchestration.
-/

/-- A coverage-profile block as used by `calculateCoverage`: the number of
statements in the block (`NumStmt`) and its execution count (`Count`).
Both are Go `int`s, modelled as `Int`. -/
structure Block where
  numStmt : Int
  count : Int
deriving DecidableEq, Repr

/-- Embedding of `calculateCoverage` (gocoverdir.go lines 287-306) after a
successful `cover.ParseProfiles`: fold over all profiles and blocks
accumulating `(total, covered)`, then return `0` when `total == 0` and
`covered / total * 100` otherwise.  Go `float64` division is modelled by
exact division in `ℚ`. -/
def calculateCoverage (profiles : List (List Block)) : ℚ :=
  let t : Int × Int := profiles.foldl
    (fun acc profile => profile.foldl
      (fun acc2 b =>
        (acc2.1 + b.numStmt, if 0 < b.count then acc2.2 + b.numStmt else acc2.2))
      acc)
    (0, 0)
  if t.1 = 0 then 0 else (t.2 : ℚ) / (t.1 : ℚ) * 100

/-- Specification-side total: the sum of the statement counts of all blocks. -/
def totalStatements (profiles : List (List Block)) : Int :=
  (profiles.flatten.map Block.numStmt).sum

/-- Specification-side covered count: the sum of the statement counts of the
blocks whose hit count is positive. -/
def coveredStatements (profiles : List (List Block)) : Int :=
  ((profiles.flatten.filter (fun b => decide (0 < b.count))).map Block.numStmt).sum

/-- Splitting a byte string at every newline, as Go's
`strings.Split(s, "\x5cn")` does: the empty string yields one empty field,
and every `'\n'` starts a new field. -/
def splitNL : List Char → List (List Char)
  | [] => [[]]
  | c :: rest =>
    if c = '\n' then [] :: splitNL rest
    else
      match splitNL rest with
      | [] => [[c]]
      | l :: ls => (c :: l) :: ls

/-- Joining fields with newlines, as Go's `strings.Join(ls, "\x5cn")`. -/
def joinNL : List (List Char) → List Char
  | [] => []
  | [l] => l
  | l :: l2 :: rest => l ++ '\n' :: joinNL (l2 :: rest)

/-- The transformation `handleErr` applies to every profile file read while
the output buffer is non-empty (gocoverdir.go lines 244-246): split into
lines, drop the first (header) line, join the rest with newlines. -/
def dropHeaderLine (contents : List Char) : List Char :=
  joinNL (splitNL contents).tail

/-- Embedding of the profile-merge loop of `handleErr` (gocoverdir.go lines
237-247): fold over the scratch files in listing order; a file read while
the output buffer is still empty is copied whole, any other file is
appended with its header line dropped. -/
def mergeProfiles (files : List (List Char)) : List Char :=
  files.foldl
    (fun buf contents =>
      if buf.length = 0 then buf ++ contents
      else buf ++ dropHeaderLine contents)
    []

/-- Embedding of Go's `path.Ext`, specialised to the separator-free names
returned by `ReadDir`: scan the name from its end; the extension starts at
the final dot and is empty when there is no dot.  The first argument
accumulates the characters already scanned (in forward order), the second
is the remaining name reversed. -/
def pathExtRev (seen : List Char) : List Char → List Char
  | [] => []
  | c :: rest =>
    if c = '/' then []
    else if c = '.' then c :: seen
    else pathExtRev (c :: seen) rest

/-- Go's `path.Ext` on a file name. -/
def pathExt (name : String) : String :=
  String.mk (pathExtRev [] name.toList.reverse)

/-- A node of the directory tree the walk runs over: a plain file with a
name, or a directory with a name and its immediate entries. -/
inductive FSNode where
  | file (name : String)
  | dir (name : String) (entries : List FSNode)

/-- The name of an entry, as `os.FileInfo.Name()` returns it. -/
def FSNode.name : FSNode → String
  | .file n => n
  | .dir n _ => n

/-- Whether an entry is a directory, as `os.FileInfo.IsDir()` reports it. -/
def FSNode.isDir : FSNode → Bool
  | .file _ => false
  | .dir _ _ => true

/-- Embedding of `containsGoTest` (gocoverdir.go lines 202-209): true when
some immediate entry, of either kind, has name extension `.go`. -/
def containsGoTest (files : List FSNode) : Bool :=
  files.any (fun f => pathExt f.name = ".go")

/-- The walk-relevant part of the run configuration: the `-depth` limit and
the parsed `-ignoredirs` set. -/
structure WalkCfg where
  depth : Int
  ignoreDirSet : List String

/-- The external `go test` subprocess, as an oracle: for each target
directory, the error of `cmd.Start()` and the error of `cmd.Wait()`
(`none` meaning success). -/
def TestRun : Type := List String → Option String × Option String

/-- Embedding of the tail of `coverDir` (gocoverdir.go lines 161-170): a
start error is returned at once, without consulting the wait result;
otherwise the wait result is returned. -/
def coverDir (startErr waitErr : Option String) : Option String :=
  match startErr with
  | some e => some e
  | none => waitErr

mutual

/-- Embedding of `coverDirectory` (gocoverdir.go lines 172-200).  Returns
the trace of Runner Invocations — each a `(directory, depth)` pair, in
invocation order, including an invocation that failed — together with the
walk's error result.  Truncates silently past the depth limit, invokes the
runner when `containsGoTest` holds of the entries, aborts on a runner
error, then recurses into subdirectory entries via `coverDirectoryLoop`. -/
def coverDirectory (cfg : WalkCfg) (run : TestRun) (dirpath : List String)
    (entries : List FSNode) (depth : Int) :
    List (List String × Int) × Option String :=
  if depth > cfg.depth then ([], none)
  else if containsGoTest entries then
    match coverDir (run dirpath).1 (run dirpath).2 with
    | some e => ([(dirpath, depth)], some e)
    | none =>
      let r := coverDirectoryLoop cfg run dirpath entries depth
      ((dirpath, depth) :: r.1, r.2)
  else coverDirectoryLoop cfg run dirpath entries depth
termination_by (sizeOf entries, 1)

/-- Embedding of the entry loop of `coverDirectory` (gocoverdir.go lines
188-198): file entries are skipped, subdirectory entries whose basename is
in the ignored set are skipped, every other subdirectory entry is walked
at `depth + 1`; an error from a recursive call aborts the loop at once. -/
def coverDirectoryLoop (cfg : WalkCfg) (run : TestRun) (dirpath : List String)
    (entries : List FSNode) (depth : Int) :
    List (List String × Int) × Option String :=
  match entries with
  | [] => ([], none)
  | .file _ :: rest => coverDirectoryLoop cfg run dirpath rest depth
  | .dir name children :: rest =>
    if cfg.ignoreDirSet.contains name then coverDirectoryLoop cfg run dirpath rest depth
    else
      match coverDirectory cfg run (dirpath ++ [name]) children (depth + 1) with
      | (t, some e) => (t, some e)
      | (t, none) =>
        let r := coverDirectoryLoop cfg run dirpath rest depth
        (t ++ r.1, r.2)
termination_by (sizeOf entries, 0)

end

mutual

/-- Replaces the contents of every subdirectory whose basename is in the
ignored set by the empty listing, everywhere in a tree.  Used to state
that the walk never looks inside an ignored directory. -/
def pruneIgnored (cfg : WalkCfg) (t : FSNode) : FSNode :=
  match t with
  | .file n => .file n
  | .dir n children =>
    if cfg.ignoreDirSet.contains n then .dir n []
    else .dir n (pruneIgnoredList cfg children)
termination_by sizeOf t

/-- `pruneIgnored` applied to every entry of a listing. -/
def pruneIgnoredList (cfg : WalkCfg) (es : List FSNode) : List FSNode :=
  match es with
  | [] => []
  | e :: rest => pruneIgnored cfg e :: pruneIgnoredList cfg rest
termination_by sizeOf es

end

/-- Embedding of `verifyParams` (gocoverdir.go lines 91-95): whether the
`log.Panicf` guard fires.  The Go `float64` flag value is modelled as an
exact rational. -/
def verifyParamsPanics (rc : ℚ) : Bool :=
  decide (rc < 0) || decide (100.0001 < rc)

/-- The run configuration fields consumed by the modelled control flow. -/
structure MainArgs where
  requiredcoverage : ℚ
  depth : Int
  ignoreDirSet : List String
  printcoverage : Bool
  htmlcoverage : Bool

/-- The outcome of `handleCoverage` (gocoverdir.go lines 253-285): a normal
return, a returned error, or the `log.Panic` taken when coverage is below
the required threshold. -/
inductive CoverageResult where
  | ok
  | err (e : String)
  | thresholdPanic
deriving DecidableEq, Repr

/-- Embedding of `handleCoverage` (gocoverdir.go lines 253-285).  `htmlErr`
is the oracle result of the external `go tool cover -html` invocation and
`parseRes` the oracle result of `cover.ParseProfiles`; the coverage value
itself is computed by `calculateCoverage`. -/
def handleCoverage (a : MainArgs) (htmlErr : Option String)
    (parseRes : Except String (List (List Block))) : CoverageResult :=
  match (if a.htmlcoverage then htmlErr else none) with
  | some e => .err e
  | none =>
    if a.printcoverage || decide (0 < a.requiredcoverage) then
      match parseRes with
      | .error e => .err e
      | .ok profiles =>
        if decide (0 < a.requiredcoverage)
            && decide (calculateCoverage profiles < a.requiredcoverage - 0.001) then
          .thresholdPanic
        else .ok
    else .ok

/-- Observable side effects of a run: a `go test` invocation on a
directory, the write of the combined profile, and the recursive removal
of the scratch directory by `Close`. -/
inductive Eff where
  | runTest (dir : List String)
  | writeProfile
  | removeAll (dir : String)
deriving DecidableEq, Repr

/-- How the process ends: normally with status zero, or by an uncaught
panic (Go exits with a non-zero status). -/
inductive RunOutcome where
  | exitZero
  | panicked (msg : String)
deriving DecidableEq, Repr

/-- The `go test` invocations of a walk trace, as effects. -/
def runnerEffs (trace : List (List String × Int)) : List Eff :=
  trace.map (fun td => Eff.runTest td.1)

/-- Embedding of the whole run: `main` (gocoverdir.go lines 308-321) with
`setup` (lines 97-125), `Main` (lines 222-227), `handleErr` (lines
229-251) and `Close` (lines 127-135) inlined, and Go `defer`/`panic`
control flow made explicit.  Oracle parameters stand for the external
world: `tempDir` is the result of `ioutil.TempDir`, `run` the subprocess
oracle, `readErr` a failure of reading the scratch area back, `writeOk`
whether `ioutil.WriteFile` succeeds, `htmlErr` and `parseRes` as in
`handleCoverage`, and `tree` the listing of the root directory `.`.

Control flow being modelled: `verifyParams` panics inside `setup` before
the scratch directory exists, so the deferred `Close` then panics on the
unset `storeDir` and no cleanup effect happens; likewise when `TempDir`
fails.  Once `storeDir` is set, the deferred `Close` runs on every path —
normal return, propagated error, or panic — and removes the scratch
directory whenever `len(storeDir) >= 4`. -/
def mainRun (a : MainArgs) (tempDir : Except String String) (run : TestRun)
    (readErr : Option String) (scratchFiles : List (List Char)) (writeOk : Bool)
    (htmlErr : Option String) (parseRes : Except String (List (List Block)))
    (tree : List FSNode) : List Eff × RunOutcome :=
  if verifyParamsPanics a.requiredcoverage then
    ([], .panicked "Required coverage must be >= 0 && <= 100")
  else
    match tempDir with
    | .error e => ([], .panicked e)
    | .ok storeDir =>
      let w := coverDirectory ⟨a.depth, a.ignoreDirSet⟩ run [] tree 0
      let body : List Eff × Option String :=
        match w.2 with
        | some e => (runnerEffs w.1, some e)
        | none =>
          match readErr with
          | some e => (runnerEffs w.1, some e)
          | none =>
            let _merged := mergeProfiles scratchFiles
            if writeOk = false then
              (runnerEffs w.1 ++ [Eff.writeProfile], some "write error")
            else
              match handleCoverage a htmlErr parseRes with
              | .ok => (runnerEffs w.1 ++ [Eff.writeProfile], none)
              | .err e => (runnerEffs w.1 ++ [Eff.writeProfile], some e)
              | .thresholdPanic =>
                (runnerEffs w.1 ++ [Eff.writeProfile], some "Code coverage less than required")
      if storeDir.length < 4 then
        (body.1, .panicked "mainStruct not setup correctly")
      else
        (body.1 ++ [Eff.removeAll storeDir],
          match body.2 with
          | some e => .panicked e
          | none => .exitZero)

/-- Structural induction principle for listings of the nested `FSNode`
tree: to prove a property of every listing it suffices to handle the
empty listing, a leading file entry, and a leading directory entry with
the property available for both its children and the remaining entries. -/
theorem fsListInduction (P : List FSNode → Prop) (h1 : P [])
    (h2 : ∀ n rest, P rest → P (FSNode.file n :: rest))
    (h3 : ∀ n children rest, P children → P rest → P (FSNode.dir n children :: rest)) :
    ∀ es, P es
  | [] => h1
  | FSNode.file n :: rest => h2 n rest (fsListInduction P h1 h2 h3 rest)
  | FSNode.dir n children :: rest =>
    h3 n children rest (fsListInduction P h1 h2 h3 children)
      (fsListInduction P h1 h2 h3 rest)
termination_by es => sizeOf es

/-- Lifts a trace depth bound for the entry loop to one for the full walk
of a directory: every invocation in the walk of a directory entered at
`depth` happens at some depth between `depth` and the configured limit. -/
theorem coverDirectory_trace_bound_of_loop (cfg : WalkCfg) (run : TestRun)
    (dirpath : List String) (es : List FSNode)
    (h : ∀ depth x, x ∈ (coverDirectoryLoop cfg run dirpath es depth).1 →
      depth < x.2 ∧ x.2 ≤ cfg.depth) :
    ∀ depth x, x ∈ (coverDirectory cfg run dirpath es depth).1 →
      depth ≤ x.2 ∧ x.2 ≤ cfg.depth := by
  intro depth x hx
  rw [coverDirectory] at hx
  by_cases hd : depth > cfg.depth
  · simp [hd] at hx
  · simp only [hd, if_false] at hx
    by_cases hc : containsGoTest es
    · simp only [hc, if_true] at hx
      cases hrun : coverDir (run dirpath).1 (run dirpath).2 with
      | some e =>
        rw [hrun] at hx
        simp at hx
        subst hx
        simp only []
        omega
      | none =>
        rw [hrun] at hx
        simp at hx
        rcases hx with hx | hx
        · subst hx
          simp only []
          omega
        · have := h depth x hx
          omega
    · simp only [hc, if_false] at hx
      have := h depth x hx
      omega

/-- Every Runner Invocation recorded by the entry loop run at `depth`
happens strictly below, at a depth of at most the configured limit. -/
theorem coverDirectoryLoop_trace_bound (cfg : WalkCfg) (run : TestRun) :
    ∀ es dirpath depth x, x ∈ (coverDirectoryLoop cfg run dirpath es depth).1 →
      depth < x.2 ∧ x.2 ≤ cfg.depth := by
  refine fsListInduction
    (fun es => ∀ dirpath depth x, x ∈ (coverDirectoryLoop cfg run dirpath es depth).1 →
      depth < x.2 ∧ x.2 ≤ cfg.depth) ?_ ?_ ?_
  · intro dirpath depth x hx
    rw [coverDirectoryLoop] at hx
    simp at hx
  · intro n rest ih dirpath depth x hx
    rw [coverDirectoryLoop] at hx
    exact ih dirpath depth x hx
  · intro n children rest ihc ihr dirpath depth x hx
    rw [coverDirectoryLoop] at hx
    by_cases hig : cfg.ignoreDirSet.contains n
    · simp only [hig, if_true] at hx
      exact ihr dirpath depth x hx
    · simp only [hig, Bool.false_eq_true, if_false] at hx
      have hchild : ∀ y ∈ (coverDirectory cfg run (dirpath ++ [n]) children (depth + 1)).1,
          depth + 1 ≤ y.2 ∧ y.2 ≤ cfg.depth := by
        intro y hy
        exact coverDirectory_trace_bound_of_loop cfg run (dirpath ++ [n]) children
          (ihc (dirpath ++ [n])) (depth + 1) y hy
      cases hcd : coverDirectory cfg run (dirpath ++ [n]) children (depth + 1) with
      | mk t r =>
        rw [hcd] at hx
        cases r with
        | some e =>
          simp at hx
          have := hchild x (by rw [hcd]; exact hx)
          omega
        | none =>
          simp at hx
          rcases hx with hx | hx
          · have := hchild x (by rw [hcd]; exact hx)
            omega
          · have := ihr dirpath depth x hx
            omega

/-- Every Runner Invocation in a walk entered at `depth` happens at a
depth between `depth` and the configured limit. -/
theorem coverDirectory_trace_bound (cfg : WalkCfg) (run : TestRun)
    (dirpath : List String) (es : List FSNode) (depth : Int) :
    ∀ x ∈ (coverDirectory cfg run dirpath es depth).1,
      depth ≤ x.2 ∧ x.2 ≤ cfg.depth := by
  intro x hx
  exact coverDirectory_trace_bound_of_loop cfg run dirpath es
    (fun d y hy => coverDirectoryLoop_trace_bound cfg run es dirpath d y hy) depth x hx

/-- The walk of a directory invokes the runner on that directory exactly
when the directory is within the depth limit and `containsGoTest` holds
of its immediate entries, whatever the runner then does. -/
theorem coverDirectory_self_mem (cfg : WalkCfg) (run : TestRun)
    (dirpath : List String) (es : List FSNode) (depth : Int) :
    (dirpath, depth) ∈ (coverDirectory cfg run dirpath es depth).1 ↔
      depth ≤ cfg.depth ∧ containsGoTest es = true := by
  constructor
  · intro hx
    have hb := coverDirectory_trace_bound cfg run dirpath es depth _ hx
    simp only [] at hb
    refine ⟨hb.2, ?_⟩
    by_contra hc
    rw [coverDirectory] at hx
    by_cases hd : depth > cfg.depth
    · simp [hd] at hx
    · simp only [hd, if_false] at hx
      simp only [Bool.not_eq_true] at hc
      simp only [hc, Bool.false_eq_true, if_false] at hx
      have := coverDirectoryLoop_trace_bound cfg run es dirpath depth _ hx
      simp only [] at this
      omega
  · rintro ⟨hd, hc⟩
    rw [coverDirectory]
    have hd' : ¬depth > cfg.depth := by omega
    simp only [hd', if_false, hc, if_true]
    cases hrun : coverDir (run dirpath).1 (run dirpath).2 with
    | some e => simp
    | none => simp

/-- Pruning never changes an entry's name. -/
theorem pruneIgnored_name (cfg : WalkCfg) (e : FSNode) :
    (pruneIgnored cfg e).name = e.name := by
  cases e with
  | file n => rw [pruneIgnored]
  | dir n children =>
    rw [pruneIgnored]
    by_cases hig : n ∈ cfg.ignoreDirSet <;> simp [hig, FSNode.name]

/-- Pruning a listing prunes each entry in place. -/
theorem pruneIgnoredList_cons (cfg : WalkCfg) (e : FSNode) (rest : List FSNode) :
    pruneIgnoredList cfg (e :: rest) = pruneIgnored cfg e :: pruneIgnoredList cfg rest := by
  rw [pruneIgnoredList]

/-- `containsGoTest` only looks at entry names, so pruning ignored
directories does not change it. -/
theorem containsGoTest_prune (cfg : WalkCfg) :
    ∀ es, containsGoTest (pruneIgnoredList cfg es) = containsGoTest es := by
  intro es
  induction es with
  | nil => rw [pruneIgnoredList]
  | cons e rest ih =>
    rw [pruneIgnoredList_cons]
    simp only [containsGoTest, List.any_cons] at *
    rw [pruneIgnored_name, ih]

/-- Lifts prune-invariance from the entry loop to the walk of one
directory. -/
theorem coverDirectory_prune_of_loop (cfg : WalkCfg) (run : TestRun)
    (children : List FSNode)
    (h : ∀ dirpath depth, coverDirectoryLoop cfg run dirpath (pruneIgnoredList cfg children) depth
      = coverDirectoryLoop cfg run dirpath children depth) :
    ∀ dirpath depth, coverDirectory cfg run dirpath (pruneIgnoredList cfg children) depth
      = coverDirectory cfg run dirpath children depth := by
  intro dirpath depth
  simp only [coverDirectory]
  rw [containsGoTest_prune cfg children, h dirpath depth]

/-- The entry loop never looks inside an ignored subdirectory: replacing
the contents of every ignored directory, anywhere in the tree, changes
nothing. -/
theorem coverDirectoryLoop_prune (cfg : WalkCfg) (run : TestRun) :
    ∀ es dirpath depth,
      coverDirectoryLoop cfg run dirpath (pruneIgnoredList cfg es) depth
        = coverDirectoryLoop cfg run dirpath es depth := by
  refine fsListInduction
    (fun es => ∀ dirpath depth,
      coverDirectoryLoop cfg run dirpath (pruneIgnoredList cfg es) depth
        = coverDirectoryLoop cfg run dirpath es depth) ?_ ?_ ?_
  · intro dirpath depth
    rw [pruneIgnoredList]
  · intro n rest ih dirpath depth
    rw [pruneIgnoredList_cons, pruneIgnored]
    rw [coverDirectoryLoop, coverDirectoryLoop]
    exact ih dirpath depth
  · intro n children rest ihc ihr dirpath depth
    rw [pruneIgnoredList_cons, pruneIgnored]
    by_cases hig : cfg.ignoreDirSet.contains n = true
    · rw [if_pos hig]
      rw [coverDirectoryLoop, coverDirectoryLoop]
      simp only [hig, if_true]
      exact ihr dirpath depth
    · rw [if_neg hig]
      rw [coverDirectoryLoop, coverDirectoryLoop]
      simp only [Bool.not_eq_true] at hig
      simp only [hig, Bool.false_eq_true, if_false]
      rw [coverDirectory_prune_of_loop cfg run children ihc (dirpath ++ [n]) (depth + 1)]
      rw [ihr dirpath depth]

/-- The walk never looks inside an ignored subdirectory: replacing the
contents of every ignored directory anywhere in the tree by an empty
listing changes neither the invocation trace nor the result. -/
theorem coverDirectory_prune (cfg : WalkCfg) (run : TestRun) (es : List FSNode) :
    ∀ dirpath depth,
      coverDirectory cfg run dirpath (pruneIgnoredList cfg es) depth
        = coverDirectory cfg run dirpath es depth :=
  coverDirectory_prune_of_loop cfg run es (coverDirectoryLoop_prune cfg run es)

/-- Unfolding of the entry loop at a non-ignored subdirectory entry,
phrased through projections of the recursive walk's result. -/
theorem coverDirectoryLoop_cons_dir (cfg : WalkCfg) (run : TestRun) (dirpath : List String)
    (m : String) (c rest : List FSNode) (depth : Int)
    (higm : cfg.ignoreDirSet.contains m = false) :
    coverDirectoryLoop cfg run dirpath (FSNode.dir m c :: rest) depth
      = match (coverDirectory cfg run (dirpath ++ [m]) c (depth + 1)).2 with
        | some e => ((coverDirectory cfg run (dirpath ++ [m]) c (depth + 1)).1, some e)
        | none =>
          ((coverDirectory cfg run (dirpath ++ [m]) c (depth + 1)).1
              ++ (coverDirectoryLoop cfg run dirpath rest depth).1,
            (coverDirectoryLoop cfg run dirpath rest depth).2) := by
  rw [coverDirectoryLoop, if_neg (by rw [higm]; exact Bool.false_ne_true)]
  rcases hw : coverDirectory cfg run (dirpath ++ [m]) c (depth + 1) with ⟨t, r⟩
  cases r <;> rfl

/-- When the entry loop finishes without error, every invocation recorded
by the walk of a non-ignored subdirectory entry, entered at `depth + 1`,
is part of the loop's own trace. -/
theorem coverDirectoryLoop_subdir_subset (cfg : WalkCfg) (run : TestRun) :
    ∀ es dirpath depth name children,
      FSNode.dir name children ∈ es →
      cfg.ignoreDirSet.contains name = false →
      (coverDirectoryLoop cfg run dirpath es depth).2 = none →
      ∀ x ∈ (coverDirectory cfg run (dirpath ++ [name]) children (depth + 1)).1,
        x ∈ (coverDirectoryLoop cfg run dirpath es depth).1 := by
  intro es
  induction es with
  | nil =>
    intro dirpath depth name children hmem
    simp at hmem
  | cons e rest ih =>
    intro dirpath depth name children hmem hig hok x hx
    cases e with
    | file m =>
      rw [coverDirectoryLoop] at hok ⊢
      have hmem' : FSNode.dir name children ∈ rest := by
        rcases List.mem_cons.mp hmem with h | h
        · exact absurd h (by simp)
        · exact h
      exact ih dirpath depth name children hmem' hig hok x hx
    | dir m c =>
      rcases List.mem_cons.mp hmem with heq | hmem'
      · have h1 : name = m := by injection heq
        subst h1
        have h2 : children = c := by injection heq
        subst h2
        rw [coverDirectoryLoop_cons_dir cfg run dirpath name children rest depth hig] at hok ⊢
        cases hr : (coverDirectory cfg run (dirpath ++ [name]) children (depth + 1)).2 with
        | some e =>
          rw [hr] at hok
          exact Option.noConfusion hok
        | none => exact List.mem_append.mpr (Or.inl hx)
      · cases higm : cfg.ignoreDirSet.contains m with
        | true =>
          rw [coverDirectoryLoop, if_pos higm] at hok ⊢
          exact ih dirpath depth name children hmem' hig hok x hx
        | false =>
          rw [coverDirectoryLoop_cons_dir cfg run dirpath m c rest depth higm] at hok ⊢
          cases hr : (coverDirectory cfg run (dirpath ++ [m]) c (depth + 1)).2 with
          | some e =>
            rw [hr] at hok
            exact Option.noConfusion hok
          | none =>
            rw [hr] at hok
            exact List.mem_append.mpr (Or.inr (ih dirpath depth name children hmem' hig hok x hx))

/-- An error from processing a prefix of the entries aborts the loop: the
remaining entries are never visited and the result is unchanged by them. -/
theorem coverDirectoryLoop_append_of_err (cfg : WalkCfg) (run : TestRun)
    (dirpath : List String) :
    ∀ pre post depth, (coverDirectoryLoop cfg run dirpath pre depth).2.isSome = true →
      coverDirectoryLoop cfg run dirpath (pre ++ post) depth
        = coverDirectoryLoop cfg run dirpath pre depth := by
  intro pre
  induction pre with
  | nil =>
    intro post depth herr
    rw [coverDirectoryLoop] at herr
    simp at herr
  | cons e pre' ih =>
    intro post depth herr
    cases e with
    | file m =>
      rw [coverDirectoryLoop] at herr
      rw [List.cons_append, coverDirectoryLoop]
      rw [ih post depth herr]
      rw [coverDirectoryLoop]
    | dir m c =>
      cases higm : cfg.ignoreDirSet.contains m with
      | true =>
        rw [coverDirectoryLoop, if_pos higm] at herr
        rw [List.cons_append, coverDirectoryLoop, if_pos higm]
        rw [ih post depth herr]
        rw [coverDirectoryLoop, if_pos higm]
      | false =>
        rw [coverDirectoryLoop_cons_dir cfg run dirpath m c pre' depth higm] at herr
        rw [List.cons_append]
        rw [coverDirectoryLoop_cons_dir cfg run dirpath m c (pre' ++ post) depth higm]
        rw [coverDirectoryLoop_cons_dir cfg run dirpath m c pre' depth higm]
        cases hr : (coverDirectory cfg run (dirpath ++ [m]) c (depth + 1)).2 with
        | some e => rfl
        | none =>
          rw [hr] at herr
          rw [ih post depth herr]

/-- Splitting always yields at least one field. -/
theorem splitNL_ne_nil (s : List Char) : splitNL s ≠ [] := by
  cases s with
  | nil => simp [splitNL]
  | cons c rest =>
    rw [splitNL]
    by_cases hc : c = '\n'
    · simp [hc]
    · simp only [hc, if_false]
      cases h : splitNL rest <;> simp

/-- Joining the fields of a split reproduces the original byte string. -/
theorem joinNL_splitNL (s : List Char) : joinNL (splitNL s) = s := by
  induction s with
  | nil => rfl
  | cons c rest ih =>
    rw [splitNL]
    by_cases hc : c = '\n'
    · rw [if_pos hc]
      cases h : splitNL rest with
      | nil => exact absurd h (splitNL_ne_nil rest)
      | cons l ls =>
        rw [joinNL]
        rw [h] at ih
        rw [ih, hc]
        simp
    · rw [if_neg hc]
      cases h : splitNL rest with
      | nil => exact absurd h (splitNL_ne_nil rest)
      | cons l ls =>
        rw [h] at ih
        cases ls with
        | nil =>
          rw [joinNL]
          rw [joinNL] at ih
          rw [ih]
        | cons l2 ls2 =>
          rw [joinNL]
          rw [joinNL] at ih
          rw [List.cons_append, ih]

/-- Splitting a string that starts with a newline-free header line followed
by a newline peels off exactly that header. -/
theorem splitNL_header (h b : List Char) (hh : '\n' ∉ h) :
    splitNL (h ++ '\n' :: b) = h :: splitNL b := by
  induction h with
  | nil => simp [splitNL]
  | cons c h' ih =>
    have hc : c ≠ '\n' := by
      intro hcc
      exact hh (hcc ▸ List.mem_cons_self c h')
    have hh' : '\n' ∉ h' := fun hm => hh (List.mem_cons_of_mem c hm)
    rw [List.cons_append, splitNL, if_neg hc, ih hh']

/-- Dropping the header line of a well-formed profile file yields exactly
its body. -/
theorem dropHeaderLine_wf (h b : List Char) (hh : '\n' ∉ h) :
    dropHeaderLine (h ++ '\n' :: b) = b := by
  rw [dropHeaderLine, splitNL_header h b hh]
  simp only [List.tail_cons]
  exact joinNL_splitNL b

/-- Once the output buffer is non-empty, the rest of the merge appends the
header-stripped contents of every remaining file, in order. -/
theorem mergeProfiles_foldl_of_ne (files : List (List Char)) :
    ∀ buf : List Char, buf ≠ [] →
      files.foldl
        (fun buf contents =>
          if buf.length = 0 then buf ++ contents
          else buf ++ dropHeaderLine contents)
        buf
      = buf ++ (files.map dropHeaderLine).flatten := by
  induction files with
  | nil =>
    intro buf hb
    simp
  | cons f rest ih =>
    intro buf hb
    rw [List.foldl_cons]
    have hlen : ¬buf.length = 0 := by
      intro h0
      exact hb (List.length_eq_zero.mp h0)
    rw [if_neg hlen]
    have hne : buf ++ dropHeaderLine f ≠ [] := by
      intro h0
      rcases List.append_eq_nil.mp h0 with ⟨h1, _⟩
      exact hb h1
    rw [ih (buf ++ dropHeaderLine f) hne]
    simp [List.append_assoc]

/-- Merging a non-empty first file copies it whole — header included — and
appends every later file with its header line dropped. -/
theorem mergeProfiles_cons_ne (f : List Char) (rest : List (List Char)) (hf : f ≠ []) :
    mergeProfiles (f :: rest) = f ++ (rest.map dropHeaderLine).flatten := by
  rw [mergeProfiles, List.foldl_cons]
  have h0 : (([] : List Char).length = 0) := rfl
  rw [if_pos h0]
  rw [List.nil_append]
  exact mergeProfiles_foldl_of_ne rest f hf

/-- The merge step leaves the buffer unchanged on an empty file, whether
or not the buffer is already empty. -/
theorem mergeStep_nil (buf : List Char) :
    (if buf.length = 0 then buf ++ ([] : List Char)
      else buf ++ dropHeaderLine ([] : List Char)) = buf := by
  by_cases h : buf.length = 0
  · rw [if_pos h]
    simp
  · rw [if_neg h]
    simp [dropHeaderLine, splitNL, joinNL]

/-- An empty scratch file contributes nothing to the merge, wherever it
occurs in listing order. -/
theorem mergeProfiles_skip_empty (pre post : List (List Char)) :
    mergeProfiles (pre ++ [] :: post) = mergeProfiles (pre ++ post) := by
  rw [mergeProfiles, mergeProfiles, List.foldl_append, List.foldl_append, List.foldl_cons]
  rw [mergeStep_nil]

/-- The inner block fold of `calculateCoverage` adds the block totals of
one profile to the accumulator. -/
theorem calculateCoverage_inner_fold (blocks : List Block) :
    ∀ acc : Int × Int,
      blocks.foldl
        (fun acc2 b =>
          (acc2.1 + b.numStmt, if 0 < b.count then acc2.2 + b.numStmt else acc2.2))
        acc
      = (acc.1 + (blocks.map Block.numStmt).sum,
          acc.2 + ((blocks.filter (fun b => decide (0 < b.count))).map Block.numStmt).sum) := by
  induction blocks with
  | nil => intro acc; simp
  | cons b rest ih =>
    intro acc
    rw [List.foldl_cons, ih]
    by_cases hb : 0 < b.count
    · simp [hb, List.filter_cons]
      constructor <;> ring
    · simp [hb, List.filter_cons]
      ring

/-- The double fold of `calculateCoverage` computes the specification-side
total and covered sums. -/
theorem calculateCoverage_fold (profiles : List (List Block)) :
    ∀ acc : Int × Int,
      profiles.foldl
        (fun acc profile => profile.foldl
          (fun acc2 b =>
            (acc2.1 + b.numStmt, if 0 < b.count then acc2.2 + b.numStmt else acc2.2))
          acc)
        acc
      = (acc.1 + totalStatements profiles, acc.2 + coveredStatements profiles) := by
  induction profiles with
  | nil =>
    intro acc
    simp [totalStatements, coveredStatements]
  | cons p rest ih =>
    intro acc
    rw [List.foldl_cons, calculateCoverage_inner_fold, ih]
    simp [totalStatements, coveredStatements, List.filter_append]
    constructor <;> ring

/-- Closed form of `calculateCoverage`: the accumulating double fold
equals the specification-side quotient, with the explicit zero when there
are no statements. -/
theorem calculateCoverage_eq (profiles : List (List Block)) :
    calculateCoverage profiles =
      if totalStatements profiles = 0 then 0
      else (coveredStatements profiles : ℚ) / (totalStatements profiles : ℚ) * 100 := by
  rw [calculateCoverage, calculateCoverage_fold profiles (0, 0)]
  simp

/-- C5: the coverage calculation returns covered/total*100, where covered
sums the statement counts of blocks with positive hit count and total
sums the statement counts of all blocks; when the total is zero it
returns exactly 0 (never dividing by zero).  Being a function of the
parsed blocks, the result is deterministic. -/
theorem calculateCoverage_spec (profiles : List (List Block)) :
    calculateCoverage profiles =
      if totalStatements profiles = 0 then 0
      else (coveredStatements profiles : ℚ) / (totalStatements profiles : ℚ) * 100 :=
  calculateCoverage_eq profiles

/-- C4: merging profile files — each a newline-free header line, a
newline, and a body — produces exactly the first file's header line
followed by the concatenation, in listing order, of the bodies (the
non-header lines) of all the files. -/
theorem mergeProfiles_wellFormed (h0 b0 : List Char) (rest : List (List Char × List Char))
    (hrest : ∀ p ∈ rest, '\n' ∉ p.1) :
    mergeProfiles ((h0 ++ '\n' :: b0) :: rest.map (fun p => p.1 ++ '\n' :: p.2))
      = h0 ++ '\n' :: (b0 ++ (rest.map Prod.snd).flatten) := by
  have hmaps : (rest.map (fun p => p.1 ++ '\n' :: p.2)).map dropHeaderLine
      = rest.map Prod.snd := by
    rw [List.map_map]
    apply List.map_congr_left
    intro p hp
    exact dropHeaderLine_wf p.1 p.2 (hrest p hp)
  rw [mergeProfiles_cons_ne _ _ (by simp), hmaps]
  simp

/-- Witness for C4: the two concrete profile files of the specification
merge to exactly the expected combined profile. -/
theorem mergeProfiles_wellFormed_witness :
    (∀ p ∈ [("mode: set".toList, "f.go:3.1,4.2 1 0\n".toList)], '\n' ∉ p.1) ∧
    mergeProfiles (("mode: set".toList ++ '\n' :: "f.go:1.1,2.2 1 1\n".toList)
        :: [("mode: set".toList, "f.go:3.1,4.2 1 0\n".toList)].map (fun p => p.1 ++ '\n' :: p.2))
      = "mode: set".toList ++ '\n' :: ("f.go:1.1,2.2 1 1\n".toList
          ++ ([("mode: set".toList, "f.go:3.1,4.2 1 0\n".toList)].map Prod.snd).flatten) :=
  ⟨by decide, mergeProfiles_wellFormed _ _ _ (by decide)⟩

/-- C10: whether a scratch file's header line is kept is decided by the
output buffer being empty, not by file position — an empty file leaves
the buffer unchanged wherever it occurs (so files read while the buffer
is empty are copied whole, and the header retained after leading empty
files is that of the first non-empty file), and once a non-empty file
has seeded the buffer every later file is appended with its header line
dropped. -/
theorem mergeProfiles_header_policy :
    (∀ pre post : List (List Char),
      mergeProfiles (pre ++ [] :: post) = mergeProfiles (pre ++ post)) ∧
    (∀ (f : List Char) (rest : List (List Char)), f ≠ [] →
      mergeProfiles (f :: rest) = f ++ (rest.map dropHeaderLine).flatten) :=
  ⟨mergeProfiles_skip_empty, mergeProfiles_cons_ne⟩

/-- Witness for C10: with an empty first scratch file, the merge keeps the
header of the first non-empty file and drops the header of the later
file. -/
theorem mergeProfiles_header_policy_witness :
    mergeProfiles ([] :: "a\nb\n".toList :: ["c\nd\n".toList])
      = "a\nb\n".toList ++ (["c\nd\n".toList].map dropHeaderLine).flatten ∧
    ("a\nb\n".toList ≠ []) := by
  constructor
  · have h1 := mergeProfiles_header_policy.1 [] ("a\nb\n".toList :: ["c\nd\n".toList])
    have h2 := mergeProfiles_header_policy.2 "a\nb\n".toList ["c\nd\n".toList] (by decide)
    rw [List.nil_append] at h1
    rw [← h2]
    exact h1
  · decide

/-- Characterisation of `handleCoverage` on a successfully parsed profile
with no HTML-tool failure: it panics on the threshold condition and
returns normally otherwise. -/
theorem handleCoverage_none_ok_eq (a : MainArgs) (profiles : List (List Block)) :
    handleCoverage a none (.ok profiles)
      = if 0 < a.requiredcoverage ∧ calculateCoverage profiles < a.requiredcoverage - 0.001
        then .thresholdPanic else .ok := by
  simp only [handleCoverage, ite_self]
  by_cases hp : a.printcoverage <;>
    by_cases h1 : 0 < a.requiredcoverage <;>
      by_cases h2 : calculateCoverage profiles < a.requiredcoverage - 0.001 <;>
        simp [hp, h1, h2]

/-- C1 (amended): with a successfully parsed profile, `handleCoverage`
takes the fatal threshold panic exactly when a required coverage was
configured (`> 0`) and the computed coverage is below the requirement
minus the 0.001 epsilon; with `requiredcoverage = 80`, a computed
coverage of 79.9998 (within the epsilon) is not a failure while 79.0
is. -/
theorem handleCoverage_threshold :
    (∀ (a : MainArgs) (profiles : List (List Block)),
      handleCoverage a none (.ok profiles) = .thresholdPanic ↔
        0 < a.requiredcoverage ∧
          calculateCoverage profiles < a.requiredcoverage - 0.001) ∧
    handleCoverage ⟨80, 10, [], false, false⟩ none
      (.ok [[⟨399999, 1⟩, ⟨100001, 0⟩]]) = .ok ∧
    handleCoverage ⟨80, 10, [], false, false⟩ none
      (.ok [[⟨79, 1⟩, ⟨21, 0⟩]]) = .thresholdPanic := by
  refine ⟨?_, ?_, ?_⟩
  · intro a profiles
    rw [handleCoverage_none_ok_eq]
    by_cases h : 0 < a.requiredcoverage ∧
        calculateCoverage profiles < a.requiredcoverage - 0.001
    · simp [h]
    · simp [if_neg h, h]
  · have hcov : calculateCoverage [[⟨399999, 1⟩, ⟨100001, 0⟩]] = 79.9998 := by
      rw [calculateCoverage_eq]
      norm_num [totalStatements, coveredStatements]
    rw [handleCoverage_none_ok_eq, hcov, if_neg (by norm_num)]
  · have hcov : calculateCoverage [[⟨79, 1⟩, ⟨21, 0⟩]] = 79 := by
      rw [calculateCoverage_eq]
      norm_num [totalStatements, coveredStatements]
    rw [handleCoverage_none_ok_eq, hcov, if_pos (by norm_num)]

/-- Counterexample for C1: with `requiredcoverage = 80`, a computed
coverage of 79.9988 (further than 0.001 below 80) IS treated as a fatal
threshold failure by the code, contrary to the claim. -/
theorem handleCoverage_799988_panics :
    calculateCoverage [[⟨199997, 1⟩, ⟨50003, 0⟩]] = 79.9988 ∧
    handleCoverage ⟨80, 10, [], false, false⟩ none
      (.ok [[⟨199997, 1⟩, ⟨50003, 0⟩]]) = .thresholdPanic := by
  have hcov : calculateCoverage [[⟨199997, 1⟩, ⟨50003, 0⟩]] = 79.9988 := by
    rw [calculateCoverage_eq]
    norm_num [totalStatements, coveredStatements]
  refine ⟨hcov, ?_⟩
  rw [handleCoverage_none_ok_eq, hcov, if_pos (by norm_num)]

/-- C2 (amended): a visited directory triggers a Runner Invocation exactly
when it is within the depth limit and some immediate entry — file or
subdirectory alike — has extension `.go`; a directory with no such entry
never triggers an invocation, and its entry loop (which walks non-ignored
subdirectories) still runs. -/
theorem runner_invocation_iff :
    (∀ (cfg : WalkCfg) (run : TestRun) (dirpath : List String) (es : List FSNode) (depth : Int),
      (dirpath, depth) ∈ (coverDirectory cfg run dirpath es depth).1 ↔
        depth ≤ cfg.depth ∧ ∃ e ∈ es, pathExt e.name = ".go") ∧
    (∀ (cfg : WalkCfg) (run : TestRun) (dirpath : List String) (es : List FSNode) (depth : Int),
      containsGoTest es = false → ¬depth > cfg.depth →
      coverDirectory cfg run dirpath es depth = coverDirectoryLoop cfg run dirpath es depth) := by
  constructor
  · intro cfg run dirpath es depth
    rw [coverDirectory_self_mem]
    simp [containsGoTest, List.any_eq_true]
  · intro cfg run dirpath es depth hc hd
    rw [coverDirectory, if_neg hd, hc]
    simp

/-- Witness for C2: a directory whose only entry is a plain file named
`main.go` within the depth limit triggers the invocation, and a directory
with no `.go` entry falls through to its entry loop. -/
theorem runner_invocation_iff_witness :
    ([ ], 0) ∈ (coverDirectory ⟨10, []⟩ (fun _ => (none, none)) [] [FSNode.file "main.go"] 0).1 ∧
    containsGoTest [FSNode.file "README"] = false ∧
    coverDirectory ⟨10, []⟩ (fun _ => (none, none)) [] [FSNode.file "README"] 0
      = coverDirectoryLoop ⟨10, []⟩ (fun _ => (none, none)) [] [FSNode.file "README"] 0 := by
  refine ⟨?_, by decide, runner_invocation_iff.2 ⟨10, []⟩ (fun _ => (none, none)) []
    [FSNode.file "README"] 0 (by decide) (by decide)⟩
  exact (runner_invocation_iff.1 ⟨10, []⟩ (fun _ => (none, none)) [] [FSNode.file "main.go"] 0).mpr
    ⟨by decide, FSNode.file "main.go", List.mem_singleton.mpr rfl, by decide⟩

/-- Counterexample for C2: a subdirectory entry named `sub.go` makes
`containsGoTest` true and triggers a Runner Invocation even though no
immediate entry is a file with extension `.go`, contrary to the claim
that subdirectory entries do not count. -/
theorem runner_invocation_counts_directories :
    (coverDirectory ⟨10, []⟩ (fun _ => (none, none)) [] [FSNode.dir "sub.go" []] 0).1
      = [([ ], 0)] ∧
    (∀ e ∈ [FSNode.dir "sub.go" []], ¬(e.isDir = false ∧ pathExt e.name = ".go")) := by
  constructor
  · simp [coverDirectory, coverDirectoryLoop, containsGoTest, pathExt, coverDir]
    decide
  · intro e he
    rw [List.mem_singleton] at he
    subst he
    intro hcon
    exact absurd hcon.1 (by decide)

/-- C6: a walk call whose depth exceeds the limit returns immediately with
an empty trace and no error, whatever the directory's entries are (so no
entries are read and no invocation happens); consequently every Runner
Invocation of any walk happens at a recursion depth of at most the
configured limit. -/
theorem depth_limit_policy :
    (∀ (cfg : WalkCfg) (run : TestRun) (dirpath : List String) (es : List FSNode) (depth : Int),
      depth > cfg.depth → coverDirectory cfg run dirpath es depth = ([], none)) ∧
    (∀ (cfg : WalkCfg) (run : TestRun) (dirpath : List String) (es : List FSNode) (depth : Int),
      ∀ x ∈ (coverDirectory cfg run dirpath es depth).1, x.2 ≤ cfg.depth) := by
  constructor
  · intro cfg run dirpath es depth h
    rw [coverDirectory, if_pos h]
  · intro cfg run dirpath es depth x hx
    exact (coverDirectory_trace_bound cfg run dirpath es depth x hx).2

/-- Witness for C6: at depth 11 with limit 10 the walk of a test-bearing
directory does nothing and reports no error. -/
theorem depth_limit_policy_witness :
    ((11 : Int) > 10) ∧
    coverDirectory ⟨10, []⟩ (fun _ => (none, none)) [] [FSNode.file "main.go"] 11
      = ([], none) :=
  ⟨by decide, depth_limit_policy.1 ⟨10, []⟩ (fun _ => (none, none)) []
    [FSNode.file "main.go"] 11 (by decide)⟩

/-- C7: the walk never recurses into a subdirectory whose basename is in
the ignored set — emptying the contents of every ignored directory
anywhere in the tree changes nothing — while every invocation recorded
by the walk of a non-ignored subdirectory entry, entered at `depth + 1`,
belongs to the enclosing loop's trace. -/
theorem ignored_dirs_policy :
    (∀ (cfg : WalkCfg) (run : TestRun) (es : List FSNode) (dirpath : List String) (depth : Int),
      coverDirectory cfg run dirpath (pruneIgnoredList cfg es) depth
        = coverDirectory cfg run dirpath es depth) ∧
    (∀ (cfg : WalkCfg) (run : TestRun) (es : List FSNode) (dirpath : List String) (depth : Int)
        (name : String) (children : List FSNode),
      FSNode.dir name children ∈ es →
      cfg.ignoreDirSet.contains name = false →
      (coverDirectoryLoop cfg run dirpath es depth).2 = none →
      ∀ x ∈ (coverDirectory cfg run (dirpath ++ [name]) children (depth + 1)).1,
        x ∈ (coverDirectoryLoop cfg run dirpath es depth).1) :=
  ⟨fun cfg run es dirpath depth => coverDirectory_prune cfg run es dirpath depth,
    fun cfg run es dirpath depth name children => coverDirectoryLoop_subdir_subset
      cfg run es dirpath depth name children⟩

/-- Witness for C7: a non-ignored package directory's invocation at depth
1 appears in the trace of the enclosing loop. -/
theorem ignored_dirs_policy_witness :
    (["pkg"], (1 : Int)) ∈
      (coverDirectoryLoop ⟨10, ["vendor"]⟩ (fun _ => (none, none)) []
        [FSNode.dir "pkg" [FSNode.file "main.go"]] 0).1 := by
  have hchild : (["pkg"], (1 : Int)) ∈
      (coverDirectory ⟨10, ["vendor"]⟩ (fun _ => (none, none)) ([] ++ ["pkg"])
        [FSNode.file "main.go"] (0 + 1)).1 := by
    simp [coverDirectory, coverDirectoryLoop, containsGoTest, pathExt, coverDir]
    decide
  have hok : (coverDirectoryLoop ⟨10, ["vendor"]⟩ (fun _ => (none, none)) []
      [FSNode.dir "pkg" [FSNode.file "main.go"]] 0).2 = none := by
    simp [coverDirectory, coverDirectoryLoop, containsGoTest, pathExt, coverDir]
    decide
  exact ignored_dirs_policy.2 ⟨10, ["vendor"]⟩ (fun _ => (none, none))
    [FSNode.dir "pkg" [FSNode.file "main.go"]] [] 0 "pkg" [FSNode.file "main.go"]
    (List.mem_singleton.mpr rfl) (by decide) hok (["pkg"], (1 : Int)) hchild

/-- C8: error propagation is fail-fast — a subprocess start error is
returned without consulting the wait result; a runner failure on a
test-bearing directory within the depth limit aborts that directory's
walk at once, with that single invocation as the whole trace; and an
error from a prefix of the entries makes the loop's result ignore all
remaining entries. -/
theorem fail_fast_propagation :
    (∀ (e : String) (w : Option String), coverDir (some e) w = some e) ∧
    (∀ (cfg : WalkCfg) (run : TestRun) (dirpath : List String) (es : List FSNode)
        (depth : Int) (e : String),
      ¬depth > cfg.depth → containsGoTest es = true →
      coverDir (run dirpath).1 (run dirpath).2 = some e →
      coverDirectory cfg run dirpath es depth = ([(dirpath, depth)], some e)) ∧
    (∀ (cfg : WalkCfg) (run : TestRun) (dirpath : List String)
        (pre post : List FSNode) (depth : Int),
      (coverDirectoryLoop cfg run dirpath pre depth).2.isSome = true →
      coverDirectoryLoop cfg run dirpath (pre ++ post) depth
        = coverDirectoryLoop cfg run dirpath pre depth) := by
  refine ⟨fun e w => rfl, ?_, ?_⟩
  · intro cfg run dirpath es depth e hd hc hrun
    rw [coverDirectory, if_neg hd, hc, if_pos rfl, hrun]
  · intro cfg run dirpath pre post depth herr
    exact coverDirectoryLoop_append_of_err cfg run dirpath pre post depth herr

/-- Witness for C8: a runner that fails on the root directory aborts the
walk with exactly one recorded invocation and the runner's error. -/
theorem fail_fast_propagation_witness :
    containsGoTest [FSNode.file "main.go"] = true ∧
    coverDirectory ⟨10, []⟩ (fun _ => (some "boom", none)) [] [FSNode.file "main.go"] 0
      = ([([ ], 0)], some "boom") :=
  ⟨by decide, fail_fast_propagation.2.1 ⟨10, []⟩ (fun _ => (some "boom", none)) []
    [FSNode.file "main.go"] 0 "boom" (by decide) (by decide) rfl⟩

/-- C3 (amended): a `requiredcoverage` outside the interval accepted by
`verifyParams` — that is, below 0 or above 100.0001 — makes the run panic
during setup with no effect at all: no scratch directory, no walk, no
subprocess, no profile write; conversely, whenever any `go test`
subprocess was spawned, the configured value satisfies
`0 ≤ requiredcoverage ≤ 100.0001`. -/
theorem requiredcoverage_validation :
    (∀ (a : MainArgs) (tempDir : Except String String) (run : TestRun)
        (readErr : Option String) (scratchFiles : List (List Char)) (writeOk : Bool)
        (htmlErr : Option String) (parseRes : Except String (List (List Block)))
        (tree : List FSNode),
      (a.requiredcoverage < 0 ∨ 100.0001 < a.requiredcoverage) →
      mainRun a tempDir run readErr scratchFiles writeOk htmlErr parseRes tree
        = ([], .panicked "Required coverage must be >= 0 && <= 100")) ∧
    (∀ (a : MainArgs) (tempDir : Except String String) (run : TestRun)
        (readErr : Option String) (scratchFiles : List (List Char)) (writeOk : Bool)
        (htmlErr : Option String) (parseRes : Except String (List (List Block)))
        (tree : List FSNode) (p : List String),
      Eff.runTest p ∈ (mainRun a tempDir run readErr scratchFiles writeOk htmlErr
        parseRes tree).1 →
      0 ≤ a.requiredcoverage ∧ a.requiredcoverage ≤ 100.0001) := by
  constructor
  · intro a tempDir run readErr scratchFiles writeOk htmlErr parseRes tree h
    have hv : verifyParamsPanics a.requiredcoverage = true := by
      rw [verifyParamsPanics]
      rcases h with h | h <;> simp [h]
    rw [mainRun.eq_def, if_pos hv]
  · intro a tempDir run readErr scratchFiles writeOk htmlErr parseRes tree p hmem
    by_cases hv : verifyParamsPanics a.requiredcoverage = true
    · rw [mainRun.eq_def, if_pos hv] at hmem
      simp at hmem
    · simp only [verifyParamsPanics, Bool.or_eq_true, decide_eq_true_eq] at hv
      push_neg at hv
      exact hv

/-- Witness for C3 (amended): `requiredcoverage = 101` panics at
validation with an empty effect trace. -/
theorem requiredcoverage_validation_witness :
    ((101 : ℚ) < 0 ∨ (100.0001 : ℚ) < 101) ∧
    mainRun ⟨101, 10, [], false, false⟩ (.ok "/tmp/gocoverdir1") (fun _ => (none, none))
      none [] true none (.ok []) []
      = ([], .panicked "Required coverage must be >= 0 && <= 100") :=
  ⟨Or.inr (by norm_num), requiredcoverage_validation.1 ⟨101, 10, [], false, false⟩
    (.ok "/tmp/gocoverdir1") (fun _ => (none, none)) none [] true none (.ok []) []
    (Or.inr (by norm_num))⟩

/-- Counterexample for C3: `requiredcoverage = 100.00005` lies outside
`[0, 100]` yet passes validation, and the run proceeds to walk the tree
and spawn a `go test` subprocess on the root directory. -/
theorem requiredcoverage_above_100_walks :
    ¬((100.00005 : ℚ) ≤ 100) ∧ (0 : ℚ) ≤ 100.00005 ∧
    Eff.runTest [] ∈ (mainRun ⟨100.00005, 10, [], false, false⟩ (.ok "/tmp/gocoverdir1")
      (fun _ => (none, none)) none [] true none (.ok []) [FSNode.file "main.go"]).1 := by
  refine ⟨by norm_num, by norm_num, ?_⟩
  have hv : verifyParamsPanics (100.00005 : ℚ) = false := by
    rw [verifyParamsPanics]
    norm_num
  have hw : coverDirectory ⟨10, []⟩ (fun _ => (none, none)) [] [FSNode.file "main.go"] 0
      = ([([ ], 0)], none) := by
    simp [coverDirectory, coverDirectoryLoop, containsGoTest, pathExt, coverDir]
    decide
  have hc0 : calculateCoverage [] = 0 := by
    rw [calculateCoverage_eq]
    norm_num [totalStatements, coveredStatements]
  have hhc : handleCoverage ⟨100.00005, 10, [], false, false⟩ none (.ok [])
      = .thresholdPanic := by
    rw [handleCoverage_none_ok_eq, hc0, if_pos (by norm_num)]
  rw [mainRun.eq_def]
  simp only [hv, Bool.false_eq_true, if_false]
  simp only [hw, hhc, runnerEffs]
  rw [if_neg (by decide)]
  decide

/-- C9: whenever setup succeeded in creating the scratch directory (the
validation guard passed and `TempDir` returned a path of the length any
`gocoverdir` temp path has), the run's effect trace ends with the
recursive removal of that scratch directory — on every path: success,
propagated walk or read or write error, parse error, HTML-tool error, or
the fatal threshold panic. -/
theorem cleanup_always_runs (a : MainArgs) (sd : String) (run : TestRun)
    (readErr : Option String) (scratchFiles : List (List Char)) (writeOk : Bool)
    (htmlErr : Option String) (parseRes : Except String (List (List Block)))
    (tree : List FSNode)
    (hv : verifyParamsPanics a.requiredcoverage = false)
    (hsd : 4 ≤ sd.length) :
    ∃ pre, (mainRun a (.ok sd) run readErr scratchFiles writeOk htmlErr parseRes tree).1
      = pre ++ [Eff.removeAll sd] := by
  rw [mainRun.eq_def]
  simp only [hv, Bool.false_eq_true, if_false]
  rw [if_neg (by omega)]
  exact ⟨_, rfl⟩

/-- Witness for C9: a plain successful run removes its scratch directory
as its final effect. -/
theorem cleanup_always_runs_witness :
    verifyParamsPanics (0 : ℚ) = false ∧ 4 ≤ "/tmp/gocoverdir1".length ∧
    ∃ pre, (mainRun ⟨0, 10, [], false, false⟩ (.ok "/tmp/gocoverdir1")
      (fun _ => (none, none)) none [] true none (.ok []) []).1
        = pre ++ [Eff.removeAll "/tmp/gocoverdir1"] :=
  ⟨by rw [verifyParamsPanics]; norm_num, by decide,
    cleanup_always_runs ⟨0, 10, [], false, false⟩ "/tmp/gocoverdir1"
      (fun _ => (none, none)) none [] true none (.ok []) []
      (by rw [verifyParamsPanics]; norm_num) (by decide)⟩
